import Mathlib

/-!
Shallow embedding of `glove.py` (pytorch-glove): windowed co-occurrence
aggregation, vocabulary selection, co-occurrence matrix assembly, and the
weighted GloVe loss, together with theorems checking the specification's
claims against this embedding.

Tokens are strings; corpus regions are lists of tokens.  Python dicts
(`Counter`, `defaultdict(float)`, dict comprehensions) are embedded as
association lists kept in insertion order, so entry order and entry count
are preserved faithfully.  Real-valued tensor arithmetic is embedded as
real-number arithmetic over lists.
-/

/-- A token of the corpus (`str` in the source). -/
abbrev Token := String

/-! ### Python slicing and `_window` / `_context_windows` (glove.py lines 94-124) -/

/-- Conversion of one Python slice endpoint: a negative index counts from the
end, and the result is clamped into `[0, n]` exactly as Python slicing does. -/
def pyIndex (n : ℕ) (a : ℤ) : ℤ :=
  if a < 0 then min (max ((n : ℤ) + a) 0) n else min (max a 0) n

/-- Python list slice `xs[a : b]` (step 1). -/
def pySlice {α : Type} (xs : List α) (a b : ℤ) : List α :=
  (xs.take (pyIndex xs.length b).toNat).drop (pyIndex xs.length a).toNat

/-- `_window(region, start_index, end_index)`:
`region[max(start_index, 0) : min(end_index, last_index) + 1]` with
`last_index = len(region) + 1`. -/
def pyWindow {α : Type} (region : List α) (s e : ℤ) : List α :=
  pySlice region (max s 0) (min e ((region.length : ℤ) + 1) + 1)

/-- `_context_windows(region, left_size, right_size)`: for each position `i`
yield `(_window(region, i - left, i - 1), region[i], _window(region, i + 1, i + right))`. -/
def contextWindows {α : Type} (region : List α) (L R : ℕ) :
    List (List α × α × List α) :=
  region.enum.map fun p =>
    (pyWindow region ((p.1 : ℤ) - L) ((p.1 : ℤ) - 1), p.2,
     pyWindow region ((p.1 : ℤ) + 1) ((p.1 : ℤ) + R))

/-! ### Insertion-ordered maps: `Counter` and `defaultdict(float)` -/

/-- First-match lookup in an association list, returning `none` when the key
is absent.  The maps built below keep keys unique, so this is exactly
Python dict lookup. -/
def dLookup {K V : Type} [DecidableEq K] : List (K × V) → K → Option V
  | [], _ => none
  | p :: rest, k => if p.1 = k then some p.2 else dLookup rest k

/-- Lookup with the `defaultdict` / `Counter` default of zero. -/
def mLookup {K V : Type} [DecidableEq K] [Zero V] (m : List (K × V)) (k : K) : V :=
  (dLookup m k).getD 0

/-- One `m[k] += w` update on a `defaultdict`: the first (unique) entry for
`k` is incremented in place; an absent key is appended at the end with the
default `0` plus `w`, matching dict insertion order. -/
def bump {K V : Type} [DecidableEq K] [Add V] : List (K × V) → K → V → List (K × V)
  | [], k, w => [(k, w)]
  | p :: rest, k, w => if p.1 = k then (p.1, p.2 + w) :: rest else p :: bump rest k w

/-- Apply a list of `+=` updates in order. -/
def applyBumps {K V : Type} [DecidableEq K] [Add V]
    (m : List (K × V)) (us : List (K × V)) : List (K × V) :=
  us.foldl (fun acc u => bump acc u.1 u.2) m

/-- The total weight a list of updates contributes to one key. -/
def sumAt {K V : Type} [DecidableEq K] [AddCommMonoid V]
    (us : List (K × V)) (k : K) : V :=
  (us.map fun u => if u.1 = k then u.2 else 0).sum

/-! ### Co-occurrence aggregation (`GloVe.fit`, glove.py lines 48-57) -/

/-- The sequence of `cooccurence_counts[(word, context_word)] += 1 / (i + 1)`
updates produced by one `(left_context, word, right_context)` triple:
the left context is iterated reversed (`left_context[::-1]`), the right
context in natural order, each with `enumerate`. -/
def tripleUpdates (t : List Token × Token × List Token) :
    List ((Token × Token) × ℚ) :=
  (t.1.reverse.enum.map fun p => ((t.2.1, p.2), (1 : ℚ) / ((p.1 : ℚ) + 1)))
    ++ (t.2.2.enum.map fun p => ((t.2.1, p.2), (1 : ℚ) / ((p.1 : ℚ) + 1)))

/-- All co-occurrence updates performed while scanning the corpus, in
program order. -/
def cooccUpdates (corpus : List (List Token)) (L R : ℕ) :
    List ((Token × Token) × ℚ) :=
  corpus.flatMap fun region => (contextWindows region L R).flatMap tripleUpdates

/-- The `cooccurence_counts` defaultdict after the corpus scan. -/
def rawCooc (corpus : List (List Token)) (L R : ℕ) : List ((Token × Token) × ℚ) :=
  applyBumps [] (cooccUpdates corpus L R)

/-- The `word_counts` Counter after the corpus scan: each occurrence of a
token increments its count by one (`word_counts.update(region)`). -/
def wordCounts (corpus : List (List Token)) : List (Token × ℕ) :=
  applyBumps [] (corpus.flatMap fun region => region.map fun w => (w, 1))

/-! ### Vocabulary selection (`GloVe.fit`, glove.py lines 63-65) -/

/-- `Counter.most_common(n)`: entries sorted by count descending, ties kept
in first-encounter (insertion) order, truncated to `n`.  CPython sorts
stably, and a stable sort's output is uniquely determined by the comparator,
so any stable sort embeds it; `List.insertionSort` with the non-strict
descending-count relation is stable and is used here. -/
def most_common (wc : List (Token × ℕ)) (n : ℕ) : List (Token × ℕ) :=
  (wc.insertionSort fun a b => b.2 ≤ a.2).take n

/-- The entries of `most_common(vocab_size)` that survive the
`count >= min_occurrances` filter. -/
def selectVocab (wc : List (Token × ℕ)) (vs mo : ℕ) : List (Token × ℕ) :=
  (most_common wc vs).filter fun p => decide (mo ≤ p.2)

/-- `self.__words = [word for word, count in word_counts.most_common(vocab_size)
if count >= min_occurrances]`. -/
def fitWords (wc : List (Token × ℕ)) (vs mo : ℕ) : List Token :=
  (selectVocab wc vs mo).map Prod.fst

/-- Keys of the `self.__word_to_id` dict.  Python dict keys are untyped: the
dict is keyed by tokens, but `fit` also looks it up with a `(Token, Token)`
tuple (the bug at glove.py line 67), so the key type admits both shapes. -/
abbrev PyKey := Sum Token (Token × Token)

/-- `self.__word_to_id = {word: i for i, word in enumerate(self.__words)}`. -/
def word_to_id (ws : List Token) : List (PyKey × ℕ) :=
  ws.enum.map fun p => (Sum.inl p.2, p.1)

/-- Python dict lookup: with duplicate keys the last binding wins, so lookup
scans the reversed insertion-order list. -/
def pyDictGet {K V : Type} [DecidableEq K] (m : List (K × V)) (k : K) : Option V :=
  dLookup m.reverse k

/-! ### Matrix assembly and the `fit` state update (glove.py lines 58-70) -/

/-- The two failures `fit` can raise: the explicit `ValueError` on an empty
co-occurrence map, and the `KeyError` raised by the dict comprehension at
glove.py line 67 when it subscripts `self.__word_to_id` with the pair tuple
`words` instead of `words[1]`. -/
inductive FitErr : Type
  | emptyCorpus : FitErr
  | keyError : FitErr
deriving DecidableEq

/-- Python dict subscription `d[k]`: the value, or a raised `KeyError`. -/
def pySubscript {K V : Type} [DecidableEq K] (m : List (K × V)) (k : K) :
    Except FitErr V :=
  match pyDictGet m k with
  | some v => Except.ok v
  | none => Except.error FitErr.keyError

/-- The dict comprehension building `self.__coocurrence_matrix`:
for each `(words, count)` in the raw co-occurrence map, if `words[0]` and
`words[1]` are both keys of `word_to_id`, evaluate the key expression
`(word_to_id[words[0]], word_to_id[words])` — whose second subscript uses the
whole pair `words` and therefore raises `KeyError` — else skip the entry. -/
def mkMatrix (w2i : List (PyKey × ℕ)) (raw : List ((Token × Token) × ℚ)) :
    Except FitErr (List ((ℕ × ℕ) × ℚ)) :=
  raw.foldlM (fun acc e =>
    if (pyDictGet w2i (Sum.inl e.1.1)).isSome ∧ (pyDictGet w2i (Sum.inl e.1.2)).isSome then
      do
        let a ← pySubscript w2i (Sum.inl e.1.1)
        let b ← pySubscript w2i (Sum.inr e.1)
        pure (acc ++ [((a, b), e.2)])
    else pure acc) []

/-- The configuration of `fit`: left/right window sizes, `vocab_size`,
`min_occurrances`. -/
structure FitConfig : Type where
  left : ℕ
  right : ℕ
  vocabSize : ℕ
  minOcc : ℕ
deriving DecidableEq

/-- The attributes of a `GloVe` instance that `fit` assigns: `self.__words`,
`self.__word_to_id` and `self.__coocurrence_matrix` (each unset before the
first successful assignment). -/
structure GloVeState : Type where
  words : Option (List Token)
  wordToId : Option (List (PyKey × ℕ))
  matrix : Option (List ((ℕ × ℕ) × ℚ))
deriving DecidableEq

/-- `GloVe.fit(corpus)` as a state transformer: scan the corpus into
`word_counts` and `cooccurence_counts`; raise `ValueError` if the latter is
empty (before any attribute is assigned); otherwise assign `self.__words` and
`self.__word_to_id`, then build the matrix comprehension, which either raises
`KeyError` (leaving the matrix attribute unassigned) or assigns
`self.__coocurrence_matrix`. -/
def fitImp (cfg : FitConfig) (s : GloVeState) (corpus : List (List Token)) :
    GloVeState × Option FitErr :=
  let raw := rawCooc corpus cfg.left cfg.right
  if raw = [] then (s, some FitErr.emptyCorpus)
  else
    let ws := fitWords (wordCounts corpus) cfg.vocabSize cfg.minOcc
    let w2i := word_to_id ws
    match mkMatrix w2i raw with
    | Except.error _ => ({ s with words := some ws, wordToId := some w2i }, some FitErr.keyError)
    | Except.ok mtx => (⟨some ws, some w2i, some mtx⟩, none)

/-! ### `GloVe.__init__` context-size handling (glove.py lines 13-19) -/

/-- The shapes a `context_size` argument can take: an int, a two-int tuple,
or anything else. -/
inductive CtxArg : Type
  | int (n : ℤ) : CtxArg
  | pair (a b : ℤ) : CtxArg
  | other : CtxArg
deriving DecidableEq

/-- The constructor's context-size logic.  The source has two independent
`if isinstance` statements: the tuple branch assigns `left_context` and
`right_context`, but the `else` belongs to the *int* check, so every
non-int argument — tuples included, their assignment notwithstanding —
falls into `raise ValueError`. -/
def initContextSize : CtxArg → Except String (ℤ × ℤ)
  | CtxArg.int n => Except.ok (n, n)
  | CtxArg.pair _ _ =>
      Except.error "context_size should be an int or a tuple of two ints"
  | CtxArg.other =>
      Except.error "context_size should be an int or a tuple of two ints"

/-! ### The weighted loss (`GloVe.forward`, glove.py lines 72-91) -/

/-- One batch element of `forward`: the focal and context embedding rows
selected by the input ids, the two selected biases, and the co-occurrence
count.  Embedding selection itself is out of scope (externally owned
parameters), so the selected rows are the inputs. -/
structure LossEntry : Type where
  fe : List ℝ
  ce : List ℝ
  fb : ℝ
  cb : ℝ
  cnt : ℝ

/-- Row dot product: `torch.sum(focal_embed * context_embed, dim=1)`. -/
noncomputable def dotR (u v : List ℝ) : ℝ :=
  ((u.zip v).map fun p => p.1 * p.2).sum

/-- `weight_factor = torch.pow(coocurrence_count / x_max, alpha)` followed by
`weight_factor[weight_factor > 1] = 1`. -/
noncomputable def weightFactor (xmax alpha c : ℝ) : ℝ :=
  if (c / xmax) ^ alpha > 1 then 1 else (c / xmax) ^ alpha

/-- One element of `single_losses = weight_factor * distance_expr` with
`distance_expr = (embedding_products + focal_bias + context_bias +
log_cooccurrences) ** 2`. -/
noncomputable def pairLoss (xmax alpha : ℝ) (e : LossEntry) : ℝ :=
  weightFactor xmax alpha e.cnt *
    (dotR e.fe e.ce + e.fb + e.cb + Real.log e.cnt) ^ 2

/-- `total_loss = torch.sum(single_losses)`: the value `forward` returns. -/
noncomputable def forwardLoss (xmax alpha : ℝ) (batch : List LossEntry) : ℝ :=
  (batch.map (pairLoss xmax alpha)).sum

/-- The loss as §4.5 of the specification words it, with the weight factor
written `min(1, (count / x_max) ^ alpha)`; stated separately so the source
form can be compared against it. -/
noncomputable def specLoss (xmax alpha : ℝ) (batch : List LossEntry) : ℝ :=
  (batch.map fun e =>
    min 1 ((e.cnt / xmax) ^ alpha) *
      (dotR e.fe e.ce + e.fb + e.cb + Real.log e.cnt) ^ 2).sum

/-! ### Helper lemmas: windows -/

theorem pyWindow_left {α : Type} (region : List α) (L i : ℕ) (h : i < region.length) :
    pyWindow region ((i : ℤ) - L) ((i : ℤ) - 1) = (region.take i).drop (i - L) := by
  have h1 : (pyIndex region.length (max ((i : ℤ) - L) 0)).toNat = i - L := by
    unfold pyIndex; split_ifs <;> omega
  have h2 : (pyIndex region.length
      (min ((i : ℤ) - 1) ((region.length : ℤ) + 1) + 1)).toNat = i := by
    unfold pyIndex; split_ifs <;> omega
  simp only [pyWindow, pySlice, h1, h2]

theorem pyWindow_right {α : Type} (region : List α) (R i : ℕ) (h : i < region.length) :
    pyWindow region ((i : ℤ) + 1) ((i : ℤ) + R) = (region.drop (i + 1)).take R := by
  have h1 : (pyIndex region.length (max ((i : ℤ) + 1) 0)).toNat = i + 1 := by
    unfold pyIndex; split_ifs <;> omega
  have h2 : (pyIndex region.length
      (min ((i : ℤ) + R) ((region.length : ℤ) + 1) + 1)).toNat
      = min (i + R + 1) region.length := by
    unfold pyIndex; split_ifs <;> omega
  simp only [pyWindow, pySlice, h1, h2]
  rw [List.drop_take]
  apply (List.take_eq_take).mpr
  simp only [List.length_drop]
  omega

theorem length_contextWindows {α : Type} (region : List α) (L R : ℕ) :
    (contextWindows region L R).length = region.length := by
  simp [contextWindows]

theorem contextWindows_getElem {α : Type} (region : List α) (L R i : ℕ)
    (h : i < region.length) :
    (contextWindows region L R)[i]? =
      some ((region.take i).drop (i - L), region.get ⟨i, h⟩,
            (region.drop (i + 1)).take R) := by
  simp only [contextWindows, List.getElem?_map, List.getElem?_enum,
    List.getElem?_eq_getElem h, Option.map_some']
  rw [pyWindow_left region L i h, pyWindow_right region R i h]
  simp [List.get_eq_getElem]

/-! ### Helper lemmas: accumulator maps -/

theorem mLookup_bump {K V : Type} [DecidableEq K] [AddMonoid V]
    (m : List (K × V)) (k : K) (w : V) (q : K) :
    mLookup (bump m k w) q = mLookup m q + (if k = q then w else 0) := by
  induction m with
  | nil =>
      by_cases hkq : k = q <;> simp [bump, mLookup, dLookup, hkq]
  | cons p rest ih =>
      by_cases hpk : p.1 = k
      · by_cases hpq : p.1 = q
        · have hkq : k = q := hpk ▸ hpq
          simp [bump, mLookup, dLookup, hpk, hpq, hkq]
        · have hkq : ¬ k = q := fun hh => hpq (hpk.trans hh)
          simp [bump, mLookup, dLookup, hpk, hpq, hkq]
      · by_cases hpq : p.1 = q
        · have hqk : ¬ q = k := fun hh => hpk (hpq ▸ hh)
          have hkq : ¬ k = q := fun hh => hqk hh.symm
          simp [bump, mLookup, dLookup, hpk, hpq, hqk, hkq]
        · simpa [bump, mLookup, dLookup, hpk, hpq] using ih

theorem sumAt_cons {K V : Type} [DecidableEq K] [AddCommMonoid V]
    (u : K × V) (us : List (K × V)) (k : K) :
    sumAt (u :: us) k = (if u.1 = k then u.2 else 0) + sumAt us k := by
  simp [sumAt]

theorem sumAt_append {K V : Type} [DecidableEq K] [AddCommMonoid V]
    (us vs : List (K × V)) (k : K) :
    sumAt (us ++ vs) k = sumAt us k + sumAt vs k := by
  simp [sumAt]

theorem mLookup_applyBumps {K V : Type} [DecidableEq K] [AddCommMonoid V]
    (us : List (K × V)) (m : List (K × V)) (k : K) :
    mLookup (applyBumps m us) k = mLookup m k + sumAt us k := by
  induction us generalizing m with
  | nil => simp [applyBumps, sumAt]
  | cons u us ih =>
      have step : applyBumps m (u :: us) = applyBumps (bump m u.1 u.2) us := rfl
      rw [step, ih, mLookup_bump, sumAt_cons, add_assoc]

theorem length_bump_ge {K V : Type} [DecidableEq K] [Add V]
    (m : List (K × V)) (k : K) (w : V) : m.length ≤ (bump m k w).length := by
  induction m with
  | nil => simp [bump]
  | cons p rest ih =>
      by_cases hpk : p.1 = k
      · simp [bump, hpk]
      · simp only [bump, if_neg hpk, List.length_cons]
        omega

theorem length_applyBumps_ge {K V : Type} [DecidableEq K] [Add V]
    (us : List (K × V)) (m : List (K × V)) :
    m.length ≤ (applyBumps m us).length := by
  induction us generalizing m with
  | nil => simp [applyBumps]
  | cons u us ih =>
      have step : applyBumps m (u :: us) = applyBumps (bump m u.1 u.2) us := rfl
      rw [step]
      exact le_trans (length_bump_ge m u.1 u.2) (ih _)

theorem applyBumps_nil_iff {K V : Type} [DecidableEq K] [Add V]
    (us : List (K × V)) : applyBumps ([] : List (K × V)) us = [] ↔ us = [] := by
  cases us with
  | nil => simp [applyBumps]
  | cons u us =>
      constructor
      · intro hcontra
        have step : applyBumps ([] : List (K × V)) (u :: us)
            = applyBumps [(u.1, u.2)] us := rfl
        rw [step] at hcontra
        have hlen := length_applyBumps_ge us [(u.1, u.2)]
        rw [hcontra] at hlen
        simp at hlen
      · intro hcontra; exact absurd hcontra (by simp)

/-! ### Helper lemmas: the `word_to_id` dict -/

theorem dLookup_append {K V : Type} [DecidableEq K]
    (xs ys : List (K × V)) (k : K) :
    dLookup (xs ++ ys) k = ((dLookup xs k).map some).getD (dLookup ys k) := by
  induction xs with
  | nil => simp [dLookup]
  | cons p rest ih =>
      by_cases hpk : p.1 = k <;> simp [dLookup, hpk, ih]

theorem dLookup_eq_none {K V : Type} [DecidableEq K]
    (m : List (K × V)) (k : K) (h : k ∉ m.map Prod.fst) : dLookup m k = none := by
  induction m with
  | nil => simp [dLookup]
  | cons p rest ih =>
      simp only [List.map_cons, List.mem_cons] at h
      push_neg at h
      have hpk : ¬ p.1 = k := fun hh => h.1 hh.symm
      simp [dLookup, hpk, ih h.2]

theorem dLookup_reverse_of_nodup {K V : Type} [DecidableEq K]
    (m : List (K × V)) (h : (m.map Prod.fst).Nodup) (k : K) :
    dLookup m.reverse k = dLookup m k := by
  induction m with
  | nil => simp
  | cons p rest ih =>
      simp only [List.map_cons, List.nodup_cons] at h
      rw [List.reverse_cons, dLookup_append]
      by_cases hpk : p.1 = k
      · have hrev : dLookup rest.reverse k = none := by
          apply dLookup_eq_none
          rw [List.map_reverse, List.mem_reverse]
          exact hpk ▸ h.1
        simp [dLookup, hrev, hpk]
      · rw [ih h.2]
        cases hres : dLookup rest k with
        | none => simp [dLookup, hpk, hres]
        | some v => simp [dLookup, hpk, hres]

theorem dLookup_word_to_id_from (ws : List Token) (hnd : ws.Nodup) (i j : ℕ)
    (h : j < ws.length) :
    dLookup ((List.enumFrom i ws).map fun p => ((Sum.inl p.2 : PyKey), p.1))
      (Sum.inl (ws.get ⟨j, h⟩)) = some (i + j) := by
  induction ws generalizing i j with
  | nil => simp at h
  | cons w rest ih =>
      rw [List.enumFrom_cons]
      cases j with
      | zero => simp [dLookup]
      | succ j =>
          simp only [List.nodup_cons] at hnd
          have hj : j < rest.length := by simpa using h
          have hne : ¬ w = rest.get ⟨j, hj⟩ := by
            intro hh
            exact hnd.1 (hh ▸ List.get_mem rest j hj)
          have hget : (w :: rest).get ⟨j + 1, h⟩ = rest.get ⟨j, hj⟩ := rfl
          rw [hget]
          simp only [List.map_cons, dLookup, Sum.inl.injEq]
          rw [if_neg (fun hh => hne hh)]
          rw [ih hnd.2 (i + 1) j hj]
          congr 1
          omega

theorem word_to_id_keys (ws : List Token) :
    (word_to_id ws).map Prod.fst = ws.map Sum.inl := by
  have : (Prod.fst ∘ fun p : ℕ × Token => ((Sum.inl p.2 : PyKey), p.1))
      = (Sum.inl ∘ Prod.snd) := rfl
  rw [word_to_id, List.map_map, this, ← List.map_map]
  rw [List.enum_map_snd]

theorem pyDictGet_word_to_id (ws : List Token) (hnd : ws.Nodup) (j : ℕ)
    (h : j < ws.length) :
    pyDictGet (word_to_id ws) (Sum.inl (ws.get ⟨j, h⟩)) = some j := by
  have hkeys : ((word_to_id ws).map Prod.fst).Nodup := by
    rw [word_to_id_keys]
    exact hnd.map fun a b => Sum.inl.inj
  rw [pyDictGet, dLookup_reverse_of_nodup _ hkeys]
  have := dLookup_word_to_id_from ws hnd 0 j h
  simpa [word_to_id] using this

theorem pyDictGet_word_to_id_none (ws : List Token) (w : Token) (h : w ∉ ws) :
    pyDictGet (word_to_id ws) (Sum.inl w) = none := by
  rw [pyDictGet]
  apply dLookup_eq_none
  rw [List.map_reverse, List.mem_reverse, word_to_id_keys]
  simp only [List.mem_map, Sum.inl.injEq]
  rintro ⟨x, hx, hh⟩
  exact h (hh ▸ hx)

/-! ### Claims -/

/-- Claim C1 (code bug): the matrix comprehension is meant to insert
`((id(wordA), id(wordB)), weight)` for every raw pair whose two tokens are in
the vocabulary and to complete without error, but the key expression
subscripts `word_to_id` with the whole pair tuple (`words` instead of
`words[1]`), so `fit` raises `KeyError` on this corpus: both tokens of the
pair `(a, b)` are in the vocabulary, the guard passes, and the subscript
fails.  The vocabulary attributes are assigned, the matrix never is. -/
theorem c1_fit_keyerror :
    fitImp ⟨1, 1, 2, 1⟩ ⟨none, none, none⟩ [["a", "b"]]
      = (⟨some ["a", "b"], some (word_to_id ["a", "b"]), none⟩,
         some FitErr.keyError) := by
  rfl

/-- Claim C2 (code bug): an int `context_size` is accepted (both window sizes
set to it), but a two-int tuple is rejected with the same `ValueError` as any
other shape: the tuple `isinstance` check is followed by an independent
`if isinstance(int)/else raise`, so every non-int falls into the raise,
contradicting the claim (and the code's own error message). -/
theorem c2_context_size :
    initContextSize (CtxArg.int 3) = Except.ok (3, 3)
    ∧ initContextSize (CtxArg.pair 1 2)
        = Except.error "context_size should be an int or a tuple of two ints"
    ∧ initContextSize CtxArg.other
        = Except.error "context_size should be an int or a tuple of two ints" :=
  ⟨rfl, rfl, rfl⟩

/-- Claim C4: `fit` raises the empty-corpus `ValueError` if and only if the
raw co-occurrence map is empty after the corpus scan; in particular a corpus
with zero sequences (which is also how an already-exhausted single-use
iterable presents itself) fails this way, and any corpus producing at least
one co-occurrence entry does not. -/
theorem c4_empty_corpus_iff :
    ∀ (cfg : FitConfig) (s : GloVeState) (corpus : List (List Token)),
      ((fitImp cfg s corpus).2 = some FitErr.emptyCorpus
        ↔ rawCooc corpus cfg.left cfg.right = [])
      ∧ (fitImp cfg s []).2 = some FitErr.emptyCorpus := by
  intro cfg s corpus
  constructor
  · by_cases hraw : rawCooc corpus cfg.left cfg.right = []
    · simp [fitImp, hraw]
    · simp only [fitImp, if_neg hraw]
      constructor
      · intro hcontra
        split at hcontra <;> simp_all
      · intro hcontra
        exact absurd hcontra hraw
  · rfl

/-- Claim C5: for every sequence, window sizes and position `i`, the window
extractor yields the left context at indices `[max(i-L,0), i-1]` in original
order and the right context at indices `i+1 .. min(i+R, n-1)`, shrinking
silently at the boundaries; on `["a","b","c"]` with both sizes 1 this gives
the listed windows. -/
theorem c5_window_extraction :
    (∀ (region : List Token) (L R i : ℕ) (h : i < region.length),
      (contextWindows region L R)[i]? =
        some ((region.take i).drop (i - L), region.get ⟨i, h⟩,
              (region.drop (i + 1)).take R))
    ∧ contextWindows ["a", "b", "c"] 1 1 =
        [([], "a", ["b"]), (["a"], "b", ["c"]), (["b"], "c", [])] := by
  constructor
  · intro region L R i h
    exact contextWindows_getElem region L R i h
  · decide

/-- Witness for C5 at `["a","b","c"]`, `L = R = 1`, `i = 1`. -/
theorem c5_window_extraction_witness :
    (contextWindows ["a", "b", "c"] 1 1)[1]? = some (["a"], "b", ["c"]) := by
  simpa using c5_window_extraction.1 ["a", "b", "c"] 1 1 1 (by decide)

/-- Claim C6: processing one `(leftContext, focalWord, rightContext)` triple
adds, for each reverse-position `k` of the left context and each natural
position `k` of the right context, weight `1/(k+1)` to the accumulator at
key `(focalWord, contextToken)` and changes no other key; on
`["x","y","z"]` with `left=0, right=2` the pair `(x,y)` accumulates `1.0`
and `(x,z)` accumulates `0.5`. -/
theorem c6_distance_weighting :
    (∀ (m : List ((Token × Token) × ℚ)) (l : List Token) (w : Token)
        (r : List Token) (q : Token × Token),
      mLookup (applyBumps m (tripleUpdates (l, w, r))) q
        = mLookup m q
          + ((l.reverse.enum.map fun p =>
                if (w, p.2) = q then (1 : ℚ) / ((p.1 : ℚ) + 1) else 0).sum
             + (r.enum.map fun p =>
                if (w, p.2) = q then (1 : ℚ) / ((p.1 : ℚ) + 1) else 0).sum))
    ∧ mLookup (rawCooc [["x", "y", "z"]] 0 2) ("x", "y") = 1
    ∧ mLookup (rawCooc [["x", "y", "z"]] 0 2) ("x", "z") = 1/2 := by
  refine ⟨?_, ?_, ?_⟩
  · intro m l w r q
    rw [mLookup_applyBumps]
    congr 1
    rw [tripleUpdates, sumAt_append]
    congr 1 <;> simp [sumAt, List.map_map, Function.comp_def]
  · norm_num [mLookup, dLookup, rawCooc, cooccUpdates, contextWindows,
      tripleUpdates, applyBumps, bump, pyWindow, pySlice, pyIndex, List.enum,
      List.enumFrom, show ("y" : Token) ≠ "z" from by decide,
      show ("x" : Token) ≠ "y" from by decide,
      show ("x" : Token) ≠ "z" from by decide]
  · norm_num [mLookup, dLookup, rawCooc, cooccUpdates, contextWindows,
      tripleUpdates, applyBumps, bump, pyWindow, pySlice, pyIndex, List.enum,
      List.enumFrom, show ("y" : Token) ≠ "z" from by decide,
      show ("x" : Token) ≠ "y" from by decide,
      show ("x" : Token) ≠ "z" from by decide]

/-- Claim C9: aggregation is order-independent: the co-occurrence weight and
word frequency an appended corpus assigns to any key are the key-by-key sums
of what the two halves assign (missing keys reading as zero). -/
theorem c9_order_independence :
    ∀ (c1 c2 : List (List Token)) (L R : ℕ) (q : Token × Token) (w : Token),
      mLookup (rawCooc (c1 ++ c2) L R) q
          = mLookup (rawCooc c1 L R) q + mLookup (rawCooc c2 L R) q
      ∧ mLookup (wordCounts (c1 ++ c2)) w
          = mLookup (wordCounts c1) w + mLookup (wordCounts c2) w := by
  intro c1 c2 L R q w
  constructor
  · simp only [rawCooc, cooccUpdates, List.flatMap_append, mLookup_applyBumps,
      sumAt_append]
    simp [mLookup, dLookup]
  · simp only [wordCounts, List.flatMap_append, mLookup_applyBumps, sumAt_append]
    simp [mLookup, dLookup]

/-- Claim C10: when `fit` fails on an empty co-occurrence map, the raise
happens before any attribute assignment, so the model state is returned
unchanged. -/
theorem c10_fit_atomic_on_empty :
    ∀ (cfg : FitConfig) (s : GloVeState) (corpus : List (List Token)),
      rawCooc corpus cfg.left cfg.right = [] →
      fitImp cfg s corpus = (s, some FitErr.emptyCorpus) := by
  intro cfg s corpus h
  simp [fitImp, h]

/-- Witness for C10 on the empty corpus and a partially populated state. -/
theorem c10_fit_atomic_on_empty_witness :
    rawCooc [] 1 1 = []
    ∧ fitImp ⟨1, 1, 2, 1⟩ ⟨some ["q"], none, none⟩ []
        = (⟨some ["q"], none, none⟩, some FitErr.emptyCorpus) :=
  ⟨rfl, c10_fit_atomic_on_empty ⟨1, 1, 2, 1⟩ ⟨some ["q"], none, none⟩ [] rfl⟩

/-- Claim C7: the vocabulary is the `vocab_size` most frequent tokens (stably
sorted, so ties keep first-encounter order) with tokens below
`min_occurrances` then dropped; the word list has no duplicates, the
selected entries are in descending-count order, and `word_to_id` maps the
word at position `j` to `j` and maps nothing outside the list, so it is a
bijection onto `0..n-1`; the claim's examples and a tie example evaluate as
stated. -/
theorem c7_vocabulary (wc : List (Token × ℕ)) (vs mo : ℕ)
    (hnd : (wc.map Prod.fst).Nodup) :
    (fitWords wc vs mo).Nodup
    ∧ (selectVocab wc vs mo).Pairwise (fun a b => b.2 ≤ a.2)
    ∧ (∀ (j : ℕ) (h : j < (fitWords wc vs mo).length),
        pyDictGet (word_to_id (fitWords wc vs mo))
          (Sum.inl ((fitWords wc vs mo).get ⟨j, h⟩)) = some j)
    ∧ (∀ w : Token, w ∉ fitWords wc vs mo →
        pyDictGet (word_to_id (fitWords wc vs mo)) (Sum.inl w) = none)
    ∧ fitWords [("a", 5), ("b", 3), ("c", 1)] 2 1 = ["a", "b"]
    ∧ fitWords [("a", 5), ("b", 3), ("c", 1)] 2 4 = ["a"]
    ∧ fitWords [("b", 2), ("a", 2), ("c", 2)] 2 1 = ["b", "a"] := by
  have hsub : (selectVocab wc vs mo).Sublist
      (wc.insertionSort fun a b => b.2 ≤ a.2) := by
    refine (List.filter_sublist _).trans ?_
    exact List.take_sublist _ _
  have hperm := List.perm_insertionSort (fun a b : Token × ℕ => b.2 ≤ a.2) wc
  have hsortnd : ((wc.insertionSort fun a b => b.2 ≤ a.2).map Prod.fst).Nodup :=
    ((hperm.map Prod.fst).nodup_iff).mpr hnd
  have hwordsnd : (fitWords wc vs mo).Nodup :=
    (hsub.map Prod.fst).nodup hsortnd
  refine ⟨hwordsnd, ?_, ?_, ?_, by decide, by decide, by decide⟩
  · haveI : IsTotal (Token × ℕ) (fun a b => b.2 ≤ a.2) :=
      ⟨fun a b => le_total b.2 a.2⟩
    haveI : IsTrans (Token × ℕ) (fun a b => b.2 ≤ a.2) :=
      ⟨fun _ _ _ hab hbc => le_trans hbc hab⟩
    exact (List.sorted_insertionSort _ wc).sublist hsub
  · intro j h
    exact pyDictGet_word_to_id (fitWords wc vs mo) hwordsnd j h
  · intro w hw
    exact pyDictGet_word_to_id_none (fitWords wc vs mo) w hw

/-- Witness for C7 on the claim's own frequency table. -/
theorem c7_vocabulary_witness :
    (([("a", 5), ("b", 3), ("c", 1)] : List (Token × ℕ)).map Prod.fst).Nodup
    ∧ fitWords [("a", 5), ("b", 3), ("c", 1)] 2 1 = ["a", "b"] :=
  ⟨by decide, (c7_vocabulary [("a", 5), ("b", 3), ("c", 1)] 2 1 (by decide)).2.2.2.2.1⟩

/-- Claim C8 (amended): `forward` computes exactly the specification's sum of
`min(1, (count/x_max)^alpha) * (dot + focalBias + contextBias + log count)^2`
— the in-place clamp `w[w > 1] = 1` equals `min 1 w` — and at
`count = 10 * x_max` (so `x_max > 0`) the weight factor equals 1 for every
nonnegative `alpha`.  The original claim's "regardless of alpha" fails for
negative `alpha` (see the counterexample), where `10 ^ alpha < 1` and no
clamping occurs. -/
theorem c8_weighted_loss :
    (∀ (xmax alpha : ℝ) (batch : List LossEntry),
      forwardLoss xmax alpha batch = specLoss xmax alpha batch)
    ∧ (∀ xmax alpha c : ℝ, 0 < xmax → 0 ≤ alpha → c = 10 * xmax →
        weightFactor xmax alpha c = 1) := by
  constructor
  · intro xmax alpha batch
    have hw : ∀ c : ℝ, weightFactor xmax alpha c = min 1 ((c / xmax) ^ alpha) := by
      intro c
      unfold weightFactor
      split_ifs with h
      · exact (min_eq_left (le_of_lt h)).symm
      · exact (min_eq_right (not_lt.mp h)).symm
    have hfun : pairLoss xmax alpha = fun e =>
        min 1 ((e.cnt / xmax) ^ alpha) *
          (dotR e.fe e.ce + e.fb + e.cb + Real.log e.cnt) ^ 2 := by
      funext e
      unfold pairLoss
      rw [hw]
    unfold forwardLoss specLoss
    rw [hfun]
  · intro xmax alpha c hx ha hc
    have hdiv : c / xmax = 10 := by
      rw [hc]
      field_simp
    have h10 : (1 : ℝ) ≤ (10 : ℝ) ^ alpha := Real.one_le_rpow (by norm_num) ha
    unfold weightFactor
    rw [hdiv]
    split_ifs with h
    · rfl
    · exact le_antisymm (not_lt.mp h) h10

/-- Witness for C8 at `x_max = 100`, `alpha = 3/4`, `count = 1000`. -/
theorem c8_weighted_loss_witness :
    (0 : ℝ) < 100 ∧ (0 : ℝ) ≤ 3/4 ∧ (1000 : ℝ) = 10 * 100
    ∧ weightFactor 100 (3/4) 1000 = 1 :=
  ⟨by norm_num, by norm_num, by norm_num,
    c8_weighted_loss.2 100 (3/4) 1000 (by norm_num) (by norm_num) (by norm_num)⟩

/-- Counterexample for C8 as stated: at `x_max = 1`, `count = 10 = 10 * x_max`
and `alpha = -1` the weight factor is `10⁻¹`, not `1`, so the factor does not
equal 1 "regardless of alpha". -/
theorem c8_counterexample : weightFactor 1 (-1) 10 ≠ 1 := by
  have h : ((10 : ℝ) / 1) ^ ((-1 : ℝ)) = 1/10 := by
    norm_num [Real.rpow_neg_one]
  simp [weightFactor, h]
  norm_num

/-- Claim C3 (amended): `forward` performs no validation of the co-occurrence
counts.  A batch containing `count = -1` is not rejected: the loss evaluates
to an ordinary value by the same formula (here `-(1/100)`, the weight factor
`(-1/100)^1` times the squared residual; in floating point the same absent
check yields non-finite values rather than an exception). -/
theorem c3_no_count_validation :
    forwardLoss 100 1 [⟨[1], [1], 0, 0, -1⟩] = -(1/100) := by
  have hlog : Real.log (-1) = 0 := by
    rw [show ((-1 : ℝ)) = -(1 : ℝ) by norm_num, Real.log_neg_eq_log, Real.log_one]
  have hpow : ((-1 : ℝ) / 100) ^ ((1 : ℝ)) = -(1/100) := by
    rw [Real.rpow_one]
    norm_num
  simp [forwardLoss, pairLoss, weightFactor, dotR, hlog, hpow]
  norm_num

/-- Counterexample for C3 as stated: a batch with `count = 0` does not fail —
`forward` has no count check and returns a value (here `0`). -/
theorem c3_counterexample : forwardLoss 100 (3/4) [⟨[0], [0], 0, 0, 0⟩] = 0 := by
  have h0 : ((0 : ℝ) / 100) ^ ((3 : ℝ)/4) = 0 := by
    rw [zero_div]
    exact Real.zero_rpow (by norm_num)
  simp [forwardLoss, pairLoss, weightFactor, dotR, Real.log_zero, h0]
